import Mathlib

/-!
Shallow embedding of `plone/restapi/serializer/vocabularies.py`
(class `SerializeVocabLikeToJson` and the per-term serializer
`SerializeTermToJson`), together with proofs of the specified
properties of its filtering, pagination wiring and serialization.

External collaborators are modelled as parameters:
* `tr : String → String` is the translation service (`zope.i18n.translate`
  with the request context fixed);
* `hb : (α : Type) → List α → BatchResult α` is `HypermediaBatch` with
  the request fixed (its internals live outside this file's source).
-/

namespace VocabSerializer

/-- A vocabulary term (`zope.schema.vocabulary.SimpleTerm`): a stable
`token` and an optional display `title`.  `title = none` models a term
whose `title` attribute is `None`; such a term does not provide
`ITitledTokenizedTerm`. -/
structure Term where
  token : String
  title : Option String
  deriving DecidableEq, Repr

/-- The parsed filter parameters of a request: `title` (substring
filter), `token` (exact filter) and `tokens` (set filter, already
normalized from `str | list[str]` to a list). -/
structure Query where
  title : String
  token : String
  tokens : List String
  deriving DecidableEq, Repr

/-- Python `s.lower()` (character-wise lowercasing). -/
def lowerStr (s : String) : String :=
  ⟨s.data.map Char.toLower⟩

/-- Python `a in b` on strings: `a` is a contiguous substring of `b`. -/
def substrB (needle hay : String) : Bool :=
  decide (needle.toList <:+: hay.toList)

/-- Case-insensitive string comparison, `a.lower() == b.lower()`. -/
def tokenEq (a b : String) : Bool :=
  lowerStr a == lowerStr b

/-- `safe_text(getattr(term, "title", None) or "")`: the text the two
filters compare titles against.  A missing, `None` or empty title all
yield the empty string. -/
def rawTitle (t : Term) : String :=
  t.title.getD ""

/-- The per-term matching rule shared by the two filters
(`vocabularies.py` lines 71-91 and 137-155): exact `token` first, then
`tokens` membership, then case-insensitive substring on the translated
title. -/
def matchesQ (tr : String → String) (q : Query) (t : Term) : Bool :=
  if q.token != "" then
    tokenEq q.token t.token
  else if !q.tokens.isEmpty then
    q.tokens.any (fun item => tokenEq item t.token)
  else
    substrB (lowerStr q.title) (lowerStr (tr (rawTitle t)))

/-- The flat-vocabulary filter loop (`__call__`, lines 69-91).  Note the
`tokens` branch appends the term once per matching entry of `tokens`
(the loop has no `break`, unlike the tree filter). -/
def filterFlat (tr : String → String) (q : Query) : List Term → List Term
  | [] => []
  | term :: rest =>
    (if q.token != "" then
      if tokenEq q.token term.token then [term] else []
    else if !q.tokens.isEmpty then
      (q.tokens.filter (fun item => tokenEq item term.token)).map (fun _ => term)
    else
      if substrB (lowerStr q.title) (lowerStr (tr (rawTitle term))) then [term] else [])
    ++ filterFlat tr q rest

/-- A node of a tree vocabulary: a term together with its ordered
children (`TreeVocabItems`, the ordered mapping from term to
sub-mapping, represented as the list of its entries). -/
inductive TNode where
  | mk (term : Term) (children : List TNode)

/-- The term at the root of a tree node. -/
def TNode.termOf : TNode → Term
  | .mk t _ => t

/-- The children of a tree node. -/
def TNode.childrenOf : TNode → List TNode
  | .mk _ cs => cs

mutual

/-- One iteration of the `filter_tree_vocab` loop body (lines 134-163):
recursively filter the node's children, then keep the node exactly when
its term matches the query (`use = True` from the token / tokens / title
branches) or the filtered children are non-empty. -/
def filterTreeNode (tr : String → String) (q : Query) : TNode → Option TNode
  | .mk t cs =>
    let inner := filter_tree_vocab tr q cs
    if matchesQ tr q t || !inner.isEmpty then some (.mk t inner) else none

/-- `filter_tree_vocab` (lines 122-165) on an entry list: the ordered
mapping of kept terms to their filtered children. -/
def filter_tree_vocab (tr : String → String) (q : Query) : List TNode → List TNode
  | [] => []
  | n :: ns =>
    match filterTreeNode tr q n with
    | some m => m :: filter_tree_vocab tr q ns
    | none => filter_tree_vocab tr q ns

end

mutual

/-- Whether the node's term, or any term below it, matches the query. -/
def hasMatchNode (tr : String → String) (q : Query) : TNode → Bool
  | .mk t cs => matchesQ tr q t || hasMatchForest tr q cs

/-- Whether any term in the forest (at any depth) matches the query. -/
def hasMatchForest (tr : String → String) (q : Query) : List TNode → Bool
  | [] => false
  | n :: ns => hasMatchNode tr q n || hasMatchForest tr q ns

end

/-- The record produced for one term, `{token, title}`. -/
structure SerTerm where
  token : String
  title : String
  deriving DecidableEq, Repr

/-- `SerializeTermToJson.__call__` (lines 201-207): the title is
`term.title` when the term provides `ITitledTokenizedTerm` (i.e. its
title is not `None`), else the token; the result is translated. -/
def serializeTerm (tr : String → String) (t : Term) : SerTerm :=
  { token := t.token
    title := tr (match t.title with | some s => s | none => t.token) }

/-- A serialized vocabulary entry: the `{token, title}` record plus an
optional `items` key holding serialized children (present only for tree
entries with non-empty filtered children). -/
inductive SerNode where
  | mk (record : SerTerm) (items : Option (List SerNode))

mutual

/-- One iteration of the `serialize_tree_vocab` loop body (lines
172-179): serialize the term, and attach an `items` key exactly when the
(filtered) children are non-empty. -/
def serializeTreeNode (tr : String → String) : TNode → SerNode
  | .mk t cs =>
    .mk (serializeTerm tr t)
        (if cs.length > 0 then some (serialize_tree_vocab tr cs) else none)

/-- `serialize_tree_vocab` (lines 167-181) on an entry list. -/
def serialize_tree_vocab (tr : String → String) : List TNode → List SerNode
  | [] => []
  | n :: ns => serializeTreeNode tr n :: serialize_tree_vocab tr ns

end

/-- The flat path serializes each term via the per-term serializer only;
no `items` key is ever attached. -/
def serializeFlat (tr : String → String) (terms : List Term) : List SerNode :=
  terms.map (fun t => .mk (serializeTerm tr t) none)

/-- Modelled from the spec: the result of the external pagination
utility (`HypermediaBatch` from `plone.restapi.batching`, not part of
this source file).  Per the spec's paginator contract it exposes a page
slice of the given ordered sequence, a total count, a canonical URL and
navigation links (empty when there is a single page). -/
structure BatchResult (α : Type) where
  page : List α
  items_total : Nat
  canonical_url : String
  links : List String

/-- The body of the error response (`{error: {type, message}}`). -/
structure ErrorBody where
  etype : String
  message : String
  deriving DecidableEq, Repr

/-- The response body: either the error object or the output envelope
with `@id`, `items` and optional `items_total` / `batching` keys. -/
inductive Body where
  | err (e : ErrorBody)
  | envelope (atId : String) (items : List SerNode)
      (items_total : Option Nat) (batching : Option (List String))

/-- The `items_total` key of a body, when present. -/
def Body.itemsTotal : Body → Option Nat
  | .err _ => none
  | .envelope _ _ it _ => it

/-- The `batching` key of a body, when present. -/
def Body.batchingOf : Body → Option (List String)
  | .err _ => none
  | .envelope _ _ _ b => b

/-- A response: HTTP status plus body (the status is 200 unless the
serializer sets it to 400). -/
structure Response where
  status : Nat
  body : Body

/-- The request form fields read by `__call__` (lines 34-37); `tokens`
already normalized to a list, `b_size` kept as the raw string. -/
structure ReqForm where
  title : String
  token : String
  tokens : List String
  b_size : String
  deriving DecidableEq, Repr

/-- The query carried by a request form. -/
def qOf (form : ReqForm) : Query :=
  ⟨form.title, form.token, form.tokens⟩

/-- The context being serialized: a flat vocabulary (any `IVocabulary`
or `IIterableSource`) or a tree vocabulary (`ITreeVocabulary`). -/
inductive Vocab where
  | flat (terms : List Term)
  | tree (forest : List TNode)

/-- `SerializeVocabLikeToJson.__call__` (lines 32-120): parameter
validation, dispatch on vocabulary shape, filtering, the `b_size = "-1"`
pagination bypass, batching and envelope assembly. -/
def callVocab (hb : (α : Type) → List α → BatchResult α) (tr : String → String)
    (form : ReqForm) (vocabulary_id : String) (vocab : Vocab) : Response :=
  if form.title != "" && form.token != "" then
    ⟨400, .err ⟨"Invalid parameters",
      "You can not filter by title and token at the same time."⟩⟩
  else
    match vocab with
    | .tree forest =>
      let terms := filter_tree_vocab tr (qOf form) forest
      if form.b_size == "-1" then
        ⟨200, .envelope vocabulary_id (serialize_tree_vocab tr terms) none none⟩
      else
        let batch := hb TNode terms
        ⟨200, .envelope batch.canonical_url (serialize_tree_vocab tr batch.page)
          (some batch.items_total)
          (if batch.links.isEmpty then none else some batch.links)⟩
    | .flat termsIn =>
      let terms := filterFlat tr (qOf form) termsIn
      if form.b_size == "-1" then
        ⟨200, .envelope vocabulary_id (serializeFlat tr terms) none none⟩
      else
        let batch := hb Term terms
        ⟨200, .envelope batch.canonical_url (serializeFlat tr batch.page)
          (some batch.items_total)
          (if batch.links.isEmpty then none else some batch.links)⟩

/-- The title the SPEC says filtering should compare against
(`titleOf(term)`: the title when the term is titled, else the token) —
stated from the spec's words, for comparison with the source's
`rawTitle`. -/
def titleOfSpec (t : Term) : String :=
  match t.title with | some s => s | none => t.token

/-- The pruning relation: the first forest arises from the second by
dropping whole subtrees and recursively pruning the children of the kept
nodes; kept siblings stay in their original relative order at every
level. -/
inductive Pruned : List TNode → List TNode → Prop
  | nil : Pruned [] []
  | drop (n : TNode) {f g : List TNode} : Pruned f g → Pruned f (n :: g)
  | keep (t : Term) {cs ds f g : List TNode} :
      Pruned cs ds → Pruned f g → Pruned (.mk t cs :: f) (.mk t ds :: g)

/-- A sample batcher for concrete evaluations: its page is the first
element of the sequence; it reports the full length, a fixed canonical
URL and one navigation link. -/
def sampleBatch (α : Type) (l : List α) : BatchResult α :=
  ⟨l.take 1, l.length, "url", ["next"]⟩

/-- Joint induction principle for tree nodes and forests, derived from
the recursor of the nested inductive. -/
theorem tree_forest_induction {P : TNode → Prop} {Q : List TNode → Prop}
    (hmk : ∀ t cs, Q cs → P (.mk t cs))
    (hnil : Q [])
    (hcons : ∀ n ns, P n → Q ns → Q (n :: ns)) :
    (∀ n, P n) ∧ ∀ f, Q f := by
  have hn : ∀ n, P n := fun n => @TNode.rec P Q hmk hnil hcons n
  refine ⟨hn, fun f => ?_⟩
  induction f with
  | nil => exact hnil
  | cons n ns ih => exact hcons n ns (hn n) ih

/-- The empty string is a substring of every string. -/
theorem substrB_empty_left (s : String) : substrB (lowerStr "") s = true := by
  show decide ([] <:+: s.toList) = true
  simp [List.nil_infix]

/-- With the empty query every term matches: the empty title filter is a
substring of every translated title. -/
theorem matchesQ_empty (tr : String → String) (t : Term) :
    matchesQ tr ⟨"", "", []⟩ t = true := by
  show substrB (lowerStr "") (lowerStr (tr (rawTitle t))) = true
  exact substrB_empty_left _

/-- With the empty query the flat filter keeps every term. -/
theorem filterFlat_empty_query (tr : String → String) :
    ∀ ts, filterFlat tr ⟨"", "", []⟩ ts = ts
  | [] => rfl
  | t :: rest => by
    have hs : matchesQ tr ⟨"", "", []⟩ t = true := matchesQ_empty tr t
    show (if substrB (lowerStr "") (lowerStr (tr (rawTitle t))) then [t] else []) ++
        filterFlat tr ⟨"", "", []⟩ rest = t :: rest
    rw [show substrB (lowerStr "") (lowerStr (tr (rawTitle t))) = true from hs]
    rw [filterFlat_empty_query tr rest]
    rfl

/-- With the empty query the tree filter keeps every node unchanged. -/
theorem filter_tree_empty_query (tr : String → String) :
    (∀ n, filterTreeNode tr ⟨"", "", []⟩ n = some n) ∧
    ∀ f, filter_tree_vocab tr ⟨"", "", []⟩ f = f := by
  refine tree_forest_induction ?_ rfl ?_
  · intro t cs hcs
    simp [filterTreeNode, hcs, matchesQ_empty]
  · intro n ns hn hns
    simp [filter_tree_vocab, hn, hns]

/-- C1: when both `title` and `token` are non-empty the serializer
returns the 400 error envelope `{error: {type: "Invalid parameters",
message: ...}}` before looking at the vocabulary: the result is the same
for every vocabulary (flat or tree), translation function and batcher,
so no filtering happens and no term is inspected. -/
theorem conflicting_title_token_rejected (hb : (α : Type) → List α → BatchResult α)
    (tr : String → String) (form : ReqForm) (vid : String) (vocab : Vocab)
    (h1 : form.title ≠ "") (h2 : form.token ≠ "") :
    callVocab hb tr form vid vocab =
      ⟨400, .err ⟨"Invalid parameters",
        "You can not filter by title and token at the same time."⟩⟩ := by
  have hc : (form.title != "" && form.token != "") = true := by
    simp [bne_iff_ne, h1, h2]
  simp [callVocab, hc]

/-- Witness for C1 at a concrete conflicting request. -/
theorem conflicting_title_token_rejected_witness :
    callVocab (fun _ l => ⟨l, l.length, "url", []⟩) id ⟨"x", "y", [], ""⟩ "vid" (.flat []) =
      ⟨400, .err ⟨"Invalid parameters",
        "You can not filter by title and token at the same time."⟩⟩ :=
  conflicting_title_token_rejected _ id ⟨"x", "y", [], ""⟩ "vid" (.flat [])
    (by decide) (by decide)

/-- C4: for the empty query (title, token and tokens all empty)
filtering is the identity: the flat filter returns all terms in their
original order and the tree filter returns the input tree with the same
terms, sibling order and nesting. -/
theorem empty_query_filter_identity (tr : String → String) :
    (∀ ts, filterFlat tr ⟨"", "", []⟩ ts = ts) ∧
    ∀ f, filter_tree_vocab tr ⟨"", "", []⟩ f = f :=
  ⟨filterFlat_empty_query tr, (filter_tree_empty_query tr).2⟩

/-- Unfolding of the tree-filter decision for one node. -/
theorem filterTreeNode_unfold (tr : String → String) (q : Query) (t : Term)
    (cs : List TNode) :
    filterTreeNode tr q (.mk t cs) =
      if (matchesQ tr q t || !(filter_tree_vocab tr q cs).isEmpty) = true then
        some (.mk t (filter_tree_vocab tr q cs))
      else none := rfl

/-- Unfolding of one iteration of the tree-filter loop. -/
theorem filter_tree_vocab_cons (tr : String → String) (q : Query) (n : TNode)
    (ns : List TNode) :
    filter_tree_vocab tr q (n :: ns) =
      match filterTreeNode tr q n with
      | some m => m :: filter_tree_vocab tr q ns
      | none => filter_tree_vocab tr q ns := rfl

/-- A node is kept by the tree filter exactly when some term in its
subtree matches; a forest filters to the empty mapping exactly when no
term in it matches. -/
theorem filterTreeNode_isSome_eq (tr : String → String) (q : Query) :
    (∀ n, (filterTreeNode tr q n).isSome = hasMatchNode tr q n) ∧
    ∀ f, (filter_tree_vocab tr q f).isEmpty = !hasMatchForest tr q f := by
  refine tree_forest_induction ?_ rfl ?_
  · intro t cs hcs
    have hinner : (!(filter_tree_vocab tr q cs).isEmpty) = hasMatchForest tr q cs := by
      rw [hcs, Bool.not_not]
    rw [filterTreeNode_unfold, hasMatchNode, ← hinner]
    cases h : (matchesQ tr q t || !(filter_tree_vocab tr q cs).isEmpty) with
    | true => rfl
    | false => rfl
  · intro n ns hn hns
    cases hfn : filterTreeNode tr q n with
    | none =>
      have h1 : hasMatchNode tr q n = false := by rw [← hn, hfn]; rfl
      rw [filter_tree_vocab_cons, hfn, hasMatchForest, h1, hns]
      rfl
    | some m =>
      have h1 : hasMatchNode tr q n = true := by rw [← hn, hfn]; rfl
      rw [filter_tree_vocab_cons, hfn, hasMatchForest, h1]
      rfl

/-- The boolean keep condition of the tree filter, as a proposition. -/
theorem keep_cond_iff (tr : String → String) (q : Query) (t : Term)
    (cs : List TNode) :
    ((matchesQ tr q t || !(filter_tree_vocab tr q cs).isEmpty) = true) ↔
      (matchesQ tr q t = true ∨ filter_tree_vocab tr q cs ≠ []) := by
  rw [Bool.or_eq_true, Bool.not_eq_true']
  simp [List.isEmpty_eq_false]

/-- C6: the tree filter includes a node (with its pruned children)
exactly when the node itself matches the query or its recursively
filtered children are non-empty; equivalently a node survives exactly
when some term in its subtree matches, so every ancestor of a matching
term is present even when no ancestor matches individually, and a
subtree with no match anywhere is dropped whole. -/
theorem tree_filter_inclusion (tr : String → String) (q : Query) :
    (∀ t cs, (filterTreeNode tr q (.mk t cs) =
        some (.mk t (filter_tree_vocab tr q cs)) ↔
        (matchesQ tr q t = true ∨ filter_tree_vocab tr q cs ≠ [])) ∧
      (filterTreeNode tr q (.mk t cs) = none ↔
        ¬(matchesQ tr q t = true ∨ filter_tree_vocab tr q cs ≠ []))) ∧
    (∀ n, (filterTreeNode tr q n).isSome = hasMatchNode tr q n) ∧
    ∀ f, filter_tree_vocab tr q f = [] ↔ hasMatchForest tr q f = false := by
  refine ⟨?_, (filterTreeNode_isSome_eq tr q).1, ?_⟩
  · intro t cs
    rw [filterTreeNode_unfold]
    constructor
    · constructor
      · intro hsome
        by_contra hno
        rw [if_neg (fun hc => hno ((keep_cond_iff tr q t cs).mp hc))] at hsome
        exact Option.noConfusion hsome
      · intro h
        rw [if_pos ((keep_cond_iff tr q t cs).mpr h)]
    · constructor
      · intro hnone
        intro h
        rw [if_pos ((keep_cond_iff tr q t cs).mpr h)] at hnone
        exact Option.noConfusion hnone
      · intro h
        rw [if_neg (fun hc => h ((keep_cond_iff tr q t cs).mp hc))]
  · intro f
    have h := (filterTreeNode_isSome_eq tr q).2 f
    constructor
    · intro hnil
      rw [hnil] at h
      have : (!hasMatchForest tr q f) = true := h.symm
      simpa using this
    · intro hno
      rw [hno] at h
      simpa [List.isEmpty_iff] using h

/-- The tree filter output is a pruning of its input, at every level. -/
theorem filter_tree_pruned (tr : String → String) (q : Query) :
    (∀ n m, filterTreeNode tr q n = some m →
      ∃ t cs ds, n = .mk t ds ∧ m = .mk t cs ∧ Pruned cs ds) ∧
    ∀ f, Pruned (filter_tree_vocab tr q f) f := by
  refine tree_forest_induction ?_ Pruned.nil ?_
  · intro t cs hcs m hm
    rw [filterTreeNode_unfold] at hm
    cases h : (matchesQ tr q t || !(filter_tree_vocab tr q cs).isEmpty) with
    | true =>
      rw [if_pos h] at hm
      exact ⟨t, filter_tree_vocab tr q cs, cs, rfl, (Option.some.inj hm).symm, hcs⟩
    | false =>
      rw [if_neg (by simp [h])] at hm
      exact Option.noConfusion hm
  · intro n ns hn hns
    cases hfn : filterTreeNode tr q n with
    | none =>
      rw [show filter_tree_vocab tr q (n :: ns) = filter_tree_vocab tr q ns by
        rw [filter_tree_vocab_cons, hfn]]
      exact Pruned.drop n hns
    | some m =>
      obtain ⟨t, cs, ds, hnd, hmd, hp⟩ := hn m hfn
      rw [show filter_tree_vocab tr q (n :: ns) = m :: filter_tree_vocab tr q ns by
        rw [filter_tree_vocab_cons, hfn]]
      rw [hnd, hmd]
      exact Pruned.keep t hp hns

/-- C7: order preservation of the tree filter: its output is a pruning
of its input, so at every level the relative order of the surviving
sibling terms equals their relative order in the input tree. -/
theorem tree_filter_order_preserved (tr : String → String) (q : Query)
    (f : List TNode) : Pruned (filter_tree_vocab tr q f) f :=
  (filter_tree_pruned tr q).2 f

/-- The tree filter is idempotent: refiltering a kept node keeps it with
the same children, and refiltering a filtered forest changes nothing. -/
theorem filter_tree_idempotent (tr : String → String) (q : Query) :
    (∀ n m, filterTreeNode tr q n = some m → filterTreeNode tr q m = some m) ∧
    ∀ f, filter_tree_vocab tr q (filter_tree_vocab tr q f) = filter_tree_vocab tr q f := by
  refine tree_forest_induction ?_ rfl ?_
  · intro t cs hcs m hm
    rw [filterTreeNode_unfold] at hm
    cases h : (matchesQ tr q t || !(filter_tree_vocab tr q cs).isEmpty) with
    | false =>
      rw [if_neg (by simp [h])] at hm
      exact Option.noConfusion hm
    | true =>
      rw [if_pos h] at hm
      rw [← Option.some.inj hm, filterTreeNode_unfold, hcs, if_pos h]
  · intro n ns hn hns
    cases hfn : filterTreeNode tr q n with
    | none =>
      rw [show filter_tree_vocab tr q (n :: ns) = filter_tree_vocab tr q ns by
        rw [filter_tree_vocab_cons, hfn]]
      exact hns
    | some m =>
      rw [show filter_tree_vocab tr q (n :: ns) = m :: filter_tree_vocab tr q ns by
        rw [filter_tree_vocab_cons, hfn]]
      simp only [filter_tree_vocab_cons, hn m hfn, hns]

/-- Unfolding of one iteration of the flat filter loop. -/
theorem filterFlat_cons (tr : String → String) (q : Query) (term : Term)
    (rest : List Term) :
    filterFlat tr q (term :: rest) =
      (if q.token != "" then
        if tokenEq q.token term.token then [term] else []
      else if !q.tokens.isEmpty then
        (q.tokens.filter (fun item => tokenEq item term.token)).map (fun _ => term)
      else
        if substrB (lowerStr q.title) (lowerStr (tr (rawTitle term))) then [term]
        else []) ++
      filterFlat tr q rest := rfl

/-- In a tokens list with pairwise case-insensitively distinct entries at
most one entry matches a given token, so the per-entry appends of the
flat filter collapse to a single membership test. -/
theorem tokens_filter_map_eq (t : Term) (s : String) :
    ∀ l : List String, l.Pairwise (fun a b => lowerStr a ≠ lowerStr b) →
      (l.filter (fun item => tokenEq item s)).map (fun _ => t) =
        if l.any (fun item => tokenEq item s) then [t] else []
  | [], _ => rfl
  | a :: l, hp => by
    have hal := (List.pairwise_cons.mp hp).1
    have hpl := (List.pairwise_cons.mp hp).2
    cases ha : tokenEq a s with
    | false =>
      simp only [List.filter_cons, ha, List.any_cons, Bool.false_or, if_false,
        Bool.false_eq_true]
      exact tokens_filter_map_eq t s l hpl
    | true =>
      have htail : l.filter (fun item => tokenEq item s) = [] := by
        rw [List.filter_eq_nil_iff]
        intro b hb hbs
        refine hal b hb ?_
        have h1 : lowerStr a = lowerStr s := by simpa [tokenEq] using ha
        have h2 : lowerStr b = lowerStr s := by simpa [tokenEq] using hbs
        rw [h1, h2]
      simp [List.filter_cons, ha, htail, List.any_cons]

/-- Whenever the entries of `tokens` are pairwise case-insensitively
distinct (in particular whenever `tokens` is empty or a single string),
the flat filter is the order-preserving `List.filter` by the shared
matching rule. -/
theorem filterFlat_eq_filter (tr : String → String) (q : Query)
    (hp : q.tokens.Pairwise fun a b => lowerStr a ≠ lowerStr b) :
    ∀ ts, filterFlat tr q ts = ts.filter (matchesQ tr q)
  | [] => rfl
  | t :: rest => by
    have ih := filterFlat_eq_filter tr q hp rest
    rw [filterFlat_cons, List.filter_cons, ih]
    cases htok : (q.token != "") with
    | true =>
      simp only [matchesQ, htok, if_true]
      cases hm : tokenEq q.token t.token <;> simp [hm]
    | false =>
      cases htoks : (!q.tokens.isEmpty) with
      | true =>
        simp only [matchesQ, htok, htoks, Bool.false_eq_true, if_false, if_true]
        rw [tokens_filter_map_eq t t.token q.tokens hp]
        cases ha : q.tokens.any (fun item => tokenEq item t.token) <;> simp [ha]
      | false =>
        simp only [matchesQ, htok, htoks, Bool.false_eq_true, if_false]
        cases hs : substrB (lowerStr q.title) (lowerStr (tr (rawTitle t))) <;> simp [hs]

/-- C5 amended: the tree filter is idempotent for every query, and the
flat filter is idempotent for every query whose tokens entries are
pairwise case-insensitively distinct (an entry matching a term more than
once duplicates it, breaking idempotence). -/
theorem filter_idempotent (tr : String → String) (q : Query) :
    (∀ f, filter_tree_vocab tr q (filter_tree_vocab tr q f) = filter_tree_vocab tr q f) ∧
    ((q.tokens.Pairwise fun a b => lowerStr a ≠ lowerStr b) →
      ∀ ts, filterFlat tr q (filterFlat tr q ts) = filterFlat tr q ts) := by
  refine ⟨(filter_tree_idempotent tr q).2, fun hp ts => ?_⟩
  rw [filterFlat_eq_filter tr q hp, filterFlat_eq_filter tr q hp, List.filter_filter]
  exact List.filter_congr (fun a _ => by cases h : matchesQ tr q a <;> simp [h])

/-- Witness for the amended C5 at a concrete query, tree and flat list. -/
theorem filter_idempotent_witness :
    filter_tree_vocab id ⟨"ap", "", []⟩
        (filter_tree_vocab id ⟨"ap", "", []⟩ [TNode.mk ⟨"a", some "Apple"⟩ []]) =
      filter_tree_vocab id ⟨"ap", "", []⟩ [TNode.mk ⟨"a", some "Apple"⟩ []] ∧
    filterFlat id ⟨"", "", ["a", "b"]⟩
        (filterFlat id ⟨"", "", ["a", "b"]⟩ [⟨"a", none⟩, ⟨"c", none⟩]) =
      filterFlat id ⟨"", "", ["a", "b"]⟩ [⟨"a", none⟩, ⟨"c", none⟩] :=
  ⟨(filter_idempotent id ⟨"ap", "", []⟩).1 [TNode.mk ⟨"a", some "Apple"⟩ []],
   (filter_idempotent id ⟨"", "", ["a", "b"]⟩).2 (by decide) [⟨"a", none⟩, ⟨"c", none⟩]⟩

/-- C5 counterexample: the flat filter is not idempotent: with tokens
["a", "A"] the single term with token "a" is returned twice, and
refiltering that output duplicates each copy again. -/
theorem filterFlat_not_idempotent :
    filterFlat id ⟨"", "", ["a", "A"]⟩
        (filterFlat id ⟨"", "", ["a", "A"]⟩ [⟨"a", none⟩]) ≠
      filterFlat id ⟨"", "", ["a", "A"]⟩ [⟨"a", none⟩] := by decide

/-- C2 counterexample: with tokens ["a", "A"] the unique input term with
token "a" appears twice in the flat filter output, so the output is not
a subsequence of the input with each term appearing at most once. -/
theorem filterFlat_duplicates :
    filterFlat id ⟨"", "", ["a", "A"]⟩ [⟨"a", none⟩] = [⟨"a", none⟩, ⟨"a", none⟩] ∧
    (filterFlat id ⟨"", "", ["a", "A"]⟩ [⟨"a", none⟩]).count ⟨"a", none⟩ = 2 :=
  ⟨by decide, by decide⟩

/-- C2 amended: with `token` empty and `tokens` non-empty with pairwise
case-insensitively distinct entries, the flat filter returns exactly the
terms whose token case-insensitively equals some entry of `tokens`, as
an ordered subsequence of the input. -/
theorem filterFlat_tokens_filter (tr : String → String) (q : Query) (ts : List Term)
    (htok : q.token = "") (hne : q.tokens ≠ [])
    (hp : q.tokens.Pairwise fun a b => lowerStr a ≠ lowerStr b) :
    filterFlat tr q ts =
      ts.filter (fun t => q.tokens.any fun item => tokenEq item t.token) ∧
    (filterFlat tr q ts).Sublist ts := by
  have heq : ∀ t, matchesQ tr q t = q.tokens.any fun item => tokenEq item t.token := by
    intro t
    have h1 : (q.token != "") = false := by simp [htok]
    have h2 : (!q.tokens.isEmpty) = true := by
      rw [List.isEmpty_eq_false.mpr hne]
      rfl
    simp [matchesQ, h1, h2]
  rw [filterFlat_eq_filter tr q hp ts]
  exact ⟨List.filter_congr (fun a _ => heq a), List.filter_sublist ts⟩

/-- Witness for the amended C2 at a concrete query and term list. -/
theorem filterFlat_tokens_filter_witness :
    filterFlat id ⟨"", "", ["b", "A"]⟩ [⟨"a", none⟩, ⟨"b", none⟩, ⟨"c", none⟩] =
      [⟨"a", none⟩, ⟨"b", none⟩, ⟨"c", none⟩].filter
        (fun t => (["b", "A"] : List String).any fun item => tokenEq item t.token) ∧
    (filterFlat id ⟨"", "", ["b", "A"]⟩
        [⟨"a", none⟩, ⟨"b", none⟩, ⟨"c", none⟩]).Sublist
      [⟨"a", none⟩, ⟨"b", none⟩, ⟨"c", none⟩] :=
  filterFlat_tokens_filter id ⟨"", "", ["b", "A"]⟩
    [⟨"a", none⟩, ⟨"b", none⟩, ⟨"c", none⟩] rfl (by decide) (by decide)

/-- C3 counterexample: with title query "abc" and a term whose token is
"abc" but whose title is None, the spec's titleOf makes the term a
substring match, yet both filters drop it: the code compares against the
translation of the empty string, not the token. -/
theorem title_fallback_counterexample :
    substrB (lowerStr "abc") (lowerStr (id (titleOfSpec ⟨"abc", none⟩))) = true ∧
    filterFlat id ⟨"abc", "", []⟩ [⟨"abc", none⟩] = [] ∧
    filter_tree_vocab id ⟨"abc", "", []⟩ [TNode.mk ⟨"abc", none⟩ []] = [] :=
  ⟨by decide, by decide, rfl⟩

/-- C3 amended: in the title branch (token and tokens both empty) both
filters compare the lowercased query title against the lowercased
translation of `rawTitle term`, which is the term title when present and
the empty string — not the token — otherwise. -/
theorem title_branch_uses_rawTitle (tr : String → String) (q : Query)
    (htok : q.token = "") (htoks : q.tokens = []) :
    (∀ t rest, filterFlat tr q (t :: rest) =
      (if substrB (lowerStr q.title) (lowerStr (tr (rawTitle t))) then [t] else []) ++
        filterFlat tr q rest) ∧
    (∀ t cs, filterTreeNode tr q (.mk t cs) =
      if (substrB (lowerStr q.title) (lowerStr (tr (rawTitle t))) ||
          !(filter_tree_vocab tr q cs).isEmpty) = true then
        some (.mk t (filter_tree_vocab tr q cs))
      else none) ∧
    ∀ t, rawTitle t = t.title.getD "" := by
  have h1 : (q.token != "") = false := by simp [htok]
  have h2 : (!q.tokens.isEmpty) = false := by simp [htoks]
  refine ⟨?_, ?_, fun t => rfl⟩
  · intro t rest
    rw [filterFlat_cons]
    simp [h1, h2]
  · intro t cs
    rw [filterTreeNode_unfold]
    have hm : matchesQ tr q t =
        substrB (lowerStr q.title) (lowerStr (tr (rawTitle t))) := by
      simp [matchesQ, h1, h2]
    rw [hm]

/-- Witness for the amended C3 at a concrete titled term. -/
theorem title_branch_uses_rawTitle_witness :
    filterFlat id ⟨"ap", "", []⟩ [⟨"a", some "Apple"⟩] =
      (if substrB (lowerStr "ap") (lowerStr (id (rawTitle ⟨"a", some "Apple"⟩))) then
        [(⟨"a", some "Apple"⟩ : Term)] else []) ++ filterFlat id ⟨"ap", "", []⟩ [] :=
  (title_branch_uses_rawTitle id ⟨"ap", "", []⟩ rfl rfl).1 ⟨"a", some "Apple"⟩ []

/-- A request that is not rejected has the conjunction of the two bne
checks false. -/
theorem no_conflict_cond (form : ReqForm)
    (hok : ¬(form.title ≠ "" ∧ form.token ≠ "")) :
    (form.title != "" && form.token != "") = false := by
  cases h : (form.title != "" && form.token != "") with
  | false => rfl
  | true =>
    rw [Bool.and_eq_true] at h
    exact absurd ⟨bne_iff_ne.mp h.1, bne_iff_ne.mp h.2⟩ hok

/-- C8: with b_size = "-1" pagination is bypassed for flat and tree
vocabularies alike: the envelope holds only the vocabulary id and the
full serialized item list, and never an items_total or batching key. -/
theorem bsize_sentinel_bypasses_batching (hb : (α : Type) → List α → BatchResult α)
    (tr : String → String) (form : ReqForm) (vid : String) (vocab : Vocab)
    (hok : ¬(form.title ≠ "" ∧ form.token ≠ "")) (hbs : form.b_size = "-1") :
    callVocab hb tr form vid vocab =
      ⟨200, .envelope vid
        (match vocab with
         | .flat ts => serializeFlat tr (filterFlat tr (qOf form) ts)
         | .tree f => serialize_tree_vocab tr (filter_tree_vocab tr (qOf form) f))
        none none⟩ := by
  have hc := no_conflict_cond form hok
  have hb1 : (form.b_size == "-1") = true := by rw [hbs]; rfl
  cases vocab with
  | flat ts => simp [callVocab, hc, hb1]
  | tree f => simp [callVocab, hc, hb1]

/-- Witness for C8: a concrete unbatched flat request. -/
theorem bsize_sentinel_bypasses_batching_witness :
    callVocab sampleBatch id ⟨"", "", [], "-1"⟩ "vid" (.flat [⟨"a", some "Apple"⟩]) =
      ⟨200, .envelope "vid" [SerNode.mk ⟨"a", "Apple"⟩ none] none none⟩ :=
  (bsize_sentinel_bypasses_batching sampleBatch id ⟨"", "", [], "-1"⟩ "vid"
    (.flat [⟨"a", some "Apple"⟩]) (by decide) rfl).trans rfl

/-- C10: for every b_size other than the exact sentinel "-1" (including
the empty string of an absent parameter) the batched path is taken, for
flat and tree vocabularies alike, and the envelope always carries an
items_total key (the batcher's total over the filtered items). -/
theorem non_sentinel_bsize_batches (hb : (α : Type) → List α → BatchResult α)
    (tr : String → String) (form : ReqForm) (vid : String) (vocab : Vocab)
    (hok : ¬(form.title ≠ "" ∧ form.token ≠ "")) (hbs : form.b_size ≠ "-1") :
    (callVocab hb tr form vid vocab).body.itemsTotal =
      some (match vocab with
        | .flat ts => (hb Term (filterFlat tr (qOf form) ts)).items_total
        | .tree f => (hb TNode (filter_tree_vocab tr (qOf form) f)).items_total) := by
  have hc := no_conflict_cond form hok
  have hb1 : (form.b_size == "-1") = false := by
    rw [beq_eq_false_iff_ne]
    exact hbs
  cases vocab with
  | flat ts => simp [callVocab, hc, hb1, Body.itemsTotal]
  | tree f => simp [callVocab, hc, hb1, Body.itemsTotal]

/-- Witness for C10: a concrete batched flat request with absent b_size. -/
theorem non_sentinel_bsize_batches_witness :
    (callVocab sampleBatch id ⟨"", "", [], ""⟩ "vid"
        (.flat [⟨"a", some "Apple"⟩])).body.itemsTotal = some 1 :=
  (non_sentinel_bsize_batches sampleBatch id ⟨"", "", [], ""⟩ "vid"
    (.flat [⟨"a", some "Apple"⟩]) (by decide) (by decide)).trans rfl

/-- C9: a paginated tree result pages only over the top-level entries of
the already-filtered tree — the batcher receives exactly that list and
its page is serialized as is — and serializing a paged-in entry emits
its entire filtered subtree recursively, attaching an items key exactly
when the filtered children are non-empty, in the filtered order. -/
theorem tree_pagination_top_level (hb : (α : Type) → List α → BatchResult α)
    (tr : String → String) (form : ReqForm) (vid : String) (forest : List TNode)
    (hok : ¬(form.title ≠ "" ∧ form.token ≠ "")) (hbs : form.b_size ≠ "-1") :
    (callVocab hb tr form vid (.tree forest) =
      ⟨200, .envelope
        (hb TNode (filter_tree_vocab tr (qOf form) forest)).canonical_url
        (serialize_tree_vocab tr
          (hb TNode (filter_tree_vocab tr (qOf form) forest)).page)
        (some (hb TNode (filter_tree_vocab tr (qOf form) forest)).items_total)
        (if (hb TNode (filter_tree_vocab tr (qOf form) forest)).links.isEmpty then
          none
        else some (hb TNode (filter_tree_vocab tr (qOf form) forest)).links)⟩) ∧
    (∀ t cs, serializeTreeNode tr (.mk t cs) =
      .mk (serializeTerm tr t)
        (if cs.length > 0 then some (serialize_tree_vocab tr cs) else none)) ∧
    ∀ n ns, serialize_tree_vocab tr (n :: ns) =
      serializeTreeNode tr n :: serialize_tree_vocab tr ns := by
  have hc := no_conflict_cond form hok
  have hb1 : (form.b_size == "-1") = false := by
    rw [beq_eq_false_iff_ne]
    exact hbs
  refine ⟨?_, fun t cs => rfl, fun n ns => rfl⟩
  simp [callVocab, hc, hb1]

/-- Witness for C9: a concrete batched tree request; the page holds the
first filtered top-level entry, serialized with its subtree. -/
theorem tree_pagination_top_level_witness :
    callVocab sampleBatch id ⟨"", "", [], ""⟩ "vid"
        (.tree [TNode.mk ⟨"a", some "Apple"⟩ [TNode.mk ⟨"c", some "Cox"⟩ []],
                TNode.mk ⟨"b", some "Banana"⟩ []]) =
      ⟨200, .envelope "url"
        [SerNode.mk ⟨"a", "Apple"⟩ (some [SerNode.mk ⟨"c", "Cox"⟩ none])]
        (some 2) (some ["next"])⟩ :=
  ((tree_pagination_top_level sampleBatch id ⟨"", "", [], ""⟩ "vid"
    [TNode.mk ⟨"a", some "Apple"⟩ [TNode.mk ⟨"c", some "Cox"⟩ []],
     TNode.mk ⟨"b", some "Banana"⟩ []]
    (by decide) (by decide)).1).trans rfl

end VocabSerializer
